import Mathlib

/-!
Shallow embedding of the query-understanding core of the Samsung Phone Advisor
(`rag_module.py`, `agents.py`).  Strings are modelled as `List Char`; Python
`None` values inside record fields are modelled as `Option.none`; code that can
raise a Python exception returns `Option` with `none` for the raised case.
Python `float` arithmetic is modelled with `ℚ` (all scores are short sums of
integer divisions, where rational arithmetic agrees with the source's
behaviour for the magnitudes involved).
-/

namespace PhoneAdvisor

/-! ### Character classes (Python `re` semantics, ASCII fragment) -/

/-- Python regex `\w` for ASCII text: letters, digits, underscore. -/
def isWordChar (c : Char) : Bool := c.isAlphanum || c = '_'

/-- Python regex `\s` / `str.strip` whitespace for ASCII text. -/
def pySpace (c : Char) : Bool :=
  c = ' ' || c = '\t' || c = '\n' || c = '\r' || c = '\x0b' || c = '\x0c'

/-- Python regex `\d` for ASCII text. -/
def isDigitChar (c : Char) : Bool := c.isDigit

/-- Python `str.lower()` (ASCII fragment, per-character). -/
def lowerL (s : List Char) : List Char := s.map Char.toLower

/-- Length of the whitespace run of `s` starting at position `i`. -/
def wsRun (s : List Char) (i : Nat) : Nat := ((s.drop i).takeWhile pySpace).length

/-- Length of the digit run of `s` starting at position `i`. -/
def digitRun (s : List Char) (i : Nat) : Nat := ((s.drop i).takeWhile isDigitChar).length

/-- The literal `lit` occurs in `s` at position `i`. -/
def litAt (lit : List Char) (s : List Char) (i : Nat) : Bool := lit.isPrefixOf (s.drop i)

/-- Position `i` of `s` holds a word character. -/
def isWordAt (s : List Char) (i : Nat) : Bool :=
  match s[i]? with
  | some c => isWordChar c
  | none => false

/-- Python regex `\b` at position `i` of `s`: exactly one of the two
neighbouring positions holds a word character. -/
def boundaryAt (s : List Char) (i : Nat) : Bool :=
  (if i = 0 then false else isWordAt s (i - 1)) != isWordAt s i

/-- Numeric value of a digit string, as produced by Python `int()`. -/
def digitsVal (ds : List Char) : Nat := ds.foldl (fun a c => a * 10 + (c.toNat - 48)) 0

/-- Python `pat in s` substring test. -/
def containsSub (s pat : List Char) : Bool :=
  (List.range (s.length + 1)).any fun i => litAt pat s i

/-- Python `str.strip()`. -/
def stripWs (s : List Char) : List Char :=
  ((s.dropWhile pySpace).reverse.dropWhile pySpace).reverse

/-- Worker for `removeAll`; the fuel starts at the string length, which
bounds the number of steps (each step shortens the string). -/
def removeAllGo (pat : List Char) : Nat → List Char → List Char
  | _, [] => []
  | 0, s => s
  | fuel + 1, c :: cs =>
    if pat ≠ [] ∧ litAt pat (c :: cs) 0 then removeAllGo pat fuel (cs.drop (pat.length - 1))
    else c :: removeAllGo pat fuel cs

/-- Python `s.replace(pat, "")`: delete every (leftmost, non-overlapping)
occurrence of the non-empty pattern `pat`. -/
def removeAll (pat s : List Char) : List Char := removeAllGo pat s.length s

/-! ### Entity resolver (`RAGModule.extract_phone_names`) -/

/-- The suffix-token alternation `(ultra|plus|\+|fe)`, in source order. -/
def suffixToks : List (List Char) := ["ultra".data, "plus".data, "+".data, "fe".data]

/-- The lookahead body `\s*(ultra|plus|\+|fe)\b` holds at position `j`:
after skipping whitespace, some suffix token occurs followed by `\b`
(the tokens start with non-space characters, so only the maximal
whitespace skip can succeed). -/
def suffixAheadAt (s : List Char) (j : Nat) : Bool :=
  let j2 := j + wsRun s j
  suffixToks.any fun t => litAt t s j2 && boundaryAt s (j2 + t.length)

/-- The follower alternation `(?:\s|$|,|\.|and|or|vs)` matches at position `j`. -/
def followerAt (s : List Char) (j : Nat) : Bool :=
  match s[j]? with
  | none => true
  | some c =>
    pySpace c || c = ',' || c = '.' ||
      litAt "and".data s j || litAt "or".data s j || litAt "vs".data s j

/-- `re.search` of `\b<lit>(?!\s*(ultra|plus|\+|fe)\b)(?:\s|$|,|\.|and|or|vs)`
(the full-name and core-name patterns of `extract_phone_names`). -/
def namePatSearch (lit : List Char) (q : List Char) : Bool :=
  (List.range (q.length + 1)).any fun i =>
    boundaryAt q i && litAt lit q i &&
      !suffixAheadAt q (i + lit.length) && followerAt q (i + lit.length)

/-- `query_suffix`/`model_suffix` normalisation `.replace("+", "plus")`. -/
def plusNorm (t : List Char) : List Char := if t = "+".data then "plus".data else t

/-- `re.search(r'^([sazn]\d+)\s*(ultra|plus|\+|fe)?$', core_name, re.IGNORECASE)`:
returns `(model_num.lower(), suffix.lower())` (suffix `[]` when absent).
With the `$` anchor the optional digit and suffix groups admit no residual
backtracking, so the parse is the deterministic scan below. -/
def parseModelCore (s : List Char) : Option (List Char × List Char) :=
  match s with
  | [] => none
  | c :: rest =>
    if Char.toLower c = 's' || Char.toLower c = 'a' ||
        Char.toLower c = 'z' || Char.toLower c = 'n' then
      let ds := rest.takeWhile isDigitChar
      if ds = [] then none
      else
        let r3 := (rest.drop ds.length).dropWhile pySpace
        let low := lowerL r3
        if low = [] then some (Char.toLower c :: ds, [])
        else if suffixToks.contains low then some (Char.toLower c :: ds, low)
        else none
    else none

/-- One attempt of `\b<model_num>\s*(ultra|plus|\+|fe)?\b` at position `i` of
the query; returns the match end and the (possibly empty) suffix group.
Backtracking order of the Python engine: maximal whitespace skip first, the
suffix alternatives in source order, then the empty group with `\b` at the
skip position, then the empty group with `\b` directly after the literal. -/
def modelMatchAt (mn : List Char) (q : List Char) (i : Nat) : Option (Nat × List Char) :=
  if boundaryAt q i && litAt mn q i then
    let j := i + mn.length
    let r := wsRun q j
    let p := j + r
    match suffixToks.find? (fun t => litAt t q p && boundaryAt q (p + t.length)) with
    | some t => some (p + t.length, t)
    | none =>
      if boundaryAt q p then some (p, [])
      else if r > 0 then some (j, [])
      else none
  else none

/-- Worker for `findModelSuffixes`: scan positions left to right, resuming
after each match end (`re.finditer` is non-overlapping). -/
def findModelSuffixesGo (mn : List Char) (q : List Char) : Nat → Nat → List (List Char)
  | 0, _ => []
  | fuel + 1, i =>
    if i > q.length then []
    else
      match modelMatchAt mn q i with
      | some (e, t) => t :: findModelSuffixesGo mn q fuel (if i < e then e else i + 1)
      | none => findModelSuffixesGo mn q fuel (i + 1)

/-- `re.finditer(rf'\b{model_num}\s*(ultra|plus|\+|fe)?\b', query_normalized)`:
the suffix group of every match, in order. -/
def findModelSuffixes (mn : List Char) (q : List Char) : List (List Char) :=
  findModelSuffixesGo mn q (q.length + 1) 0

/-- The `for qm in query_matches` loop of the series-suffix branch:
equal suffixes score 90 (break); query-only suffix is skipped; candidate-only
suffix scores 30 (break); two different non-empty suffixes are skipped. -/
def modelLoop (msfx : List Char) : List (List Char) → Option Nat
  | [] => none
  | qs :: rest =>
    let q' := plusNorm qs
    if msfx = q' then some 90
    else if q' ≠ [] ∧ msfx = [] then modelLoop msfx rest
    else if q' = [] ∧ msfx ≠ [] then some 30
    else modelLoop msfx rest

/-- `re.search(r'^z\s*(fold|flip)\s*(\d+)?\s*(fe|special)?$', core_name,
re.IGNORECASE)`: returns `(series_type, version, variant)` with the source's
`or ""` defaults and `.lower()` normalisations applied. -/
def parseFoldCore (s : List Char) : Option (List Char × List Char × List Char) :=
  match s with
  | [] => none
  | c :: rest =>
    if Char.toLower c = 'z' then
      let r1 := rest.dropWhile pySpace
      let low4 := lowerL (r1.take 4)
      if low4 = "fold".data || low4 = "flip".data then
        let r3 := (r1.drop 4).dropWhile pySpace
        let ds := r3.takeWhile isDigitChar
        let r5 := (r3.drop ds.length).dropWhile pySpace
        let lv := lowerL r5
        if lv = [] then some (low4, ds, [])
        else if lv = "fe".data || lv = "special".data then some (low4, ds, lv)
        else none
      else none
    else none

/-- One attempt of `\bz\s*{series_type}\s*(\d+)?\s*(fe|special)?\b` at
position `i`; returns `(version group, variant group)` (empty for a
non-participating group, matching the source's `or ""`).  The cascade mirrors
the Python engine's backtracking: greedy digits, then the variant
alternatives, then the empty variant at each viable `\b` position, then no
digits at all. -/
def foldMatchAt (series : List Char) (q : List Char) (i : Nat) :
    Option (List Char × List Char) :=
  if boundaryAt q i && litAt ['z'] q i then
    let a1 := (i + 1) + wsRun q (i + 1)
    if litAt series q a1 then
      let a := a1 + series.length
      let b := a + wsRun q a
      let k := digitRun q b
      let tryNoDigits : Option (List Char × List Char) :=
        if litAt "fe".data q b && boundaryAt q (b + 2) then some ([], "fe".data)
        else if litAt "special".data q b && boundaryAt q (b + 7) then some ([], "special".data)
        else if boundaryAt q b then some ([], [])
        else if b > a then some ([], [])
        else none
      if k > 0 then
        let c := b + k
        let r2 := wsRun q c
        let v := c + r2
        let digits := (q.drop b).take k
        if litAt "fe".data q v && boundaryAt q (v + 2) then some (digits, "fe".data)
        else if litAt "special".data q v && boundaryAt q (v + 7) then some (digits, "special".data)
        else if boundaryAt q v then some (digits, [])
        else if r2 > 0 then some (digits, [])
        else tryNoDigits
      else tryNoDigits
    else none
  else none

/-- `re.search` of the query fold pattern: groups of the leftmost match. -/
def foldQuerySearch (series : List Char) (q : List Char) : Option (List Char × List Char) :=
  (List.range (q.length + 1)).findSome? fun i => foldMatchAt series q i

/-- The fold-branch scoring against the query match (source order of the
three `if`/`elif` arms; the middle arm is subsumed by the first and kept for
faithfulness). -/
def foldDecide (version variant : List Char) :
    Option (List Char × List Char) → Option Nat
  | none => none
  | some (qv, qvar) =>
    if version = qv ∧ variant = qvar then some 90
    else if version = qv ∧ qvar = [] ∧ variant = [] then some 90
    else if version = qv ∧ qvar = [] then some 40
    else none

/-- Confidence recorded for one candidate `phone_name` against the normalised
query (`none` when the candidate contributes no `(name, score)` pair).  Each
branch of the source appends at most one pair per phone and then `continue`s,
so an `Option` return is exact. -/
def phoneConf (qn : List Char) (name : String) : Option Nat :=
  let nameL := lowerL name.data
  let core := stripWs (removeAll "galaxy ".data nameL)
  if namePatSearch nameL qn then some 100
  else if namePatSearch core qn then some 95
  else
    match parseModelCore core with
    | some (mn, msfx) => modelLoop (plusNorm msfx) (findModelSuffixes mn qn)
    | none =>
      match parseFoldCore core with
      | some (series, ver, vari) => foldDecide ver vari (foldQuerySearch series qn)
      | none => none

/-- Stable insertion step for a descending sort: `x` goes before the first
element whose key is `≤ key x` (so equal keys keep input order). -/
def insertDesc {α β : Type} [LinearOrder β] (key : α → β) (x : α) :
    List α → List α
  | [] => [x]
  | y :: ys => if key x < key y then y :: insertDesc key x ys else x :: y :: ys

/-- Stable descending sort by key: the behaviour of Python's
`list.sort(key=..., reverse=True)` (stable, descending). -/
def sortDescBy {α β : Type} [LinearOrder β] (key : α → β) : List α → List α
  | [] => []
  | x :: xs => insertDesc key x (sortDescBy key xs)

/-- One pass of the selection loops of `extract_phone_names`: keep names with
confidence `≥ t`, first occurrence only (`seen` set). -/
def selectLoop (t : Nat) : List (String × Nat) → List String → List String
  | [], _ => []
  | (n, c) :: rest, seen =>
    if t ≤ c ∧ n ∉ seen then n :: selectLoop t rest (n :: seen)
    else selectLoop t rest seen

/-- Query normalisation of `extract_phone_names`: lower-case, then delete
every `"samsung "`. -/
def normQuery (query : String) : List Char := removeAll "samsung ".data (lowerL query.data)

/-- `RAGModule.extract_phone_names`, with the record store's name listing
passed in as `catalog`. -/
def extract_phone_names (query : String) (catalog : List String) : List String :=
  let qn := normQuery query
  let matched := catalog.filterMap fun n => (phoneConf qn n).map fun c => (n, c)
  let sorted := sortDescBy (fun p => p.2) matched
  let result := selectLoop 80 sorted []
  if result = [] then selectLoop 30 sorted [] else result

/-! ### Data model (`database.Phone.to_dict`)

`to_dict` always emits every key, so a record dictionary never lacks a key
(the `dict.get` defaults in the consumers are dead); a field's value is
either a string or Python `None` (a SQL NULL), modelled as `Option String`. -/

structure PhoneRec where
  id : Option Int := none
  model_name : Option String := none
  release_date : Option String := none
  display : Option String := none
  battery : Option String := none
  camera : Option String := none
  ram : Option String := none
  storage : Option String := none
  price : Option String := none
  chipset : Option String := none
  os : Option String := none
  body : Option String := none
  url : Option String := none
deriving DecidableEq, Repr

/-- `phone.get(spec)` for the keys used by `_prepare_comparison`
(the catch-all arm models `dict.get` of an unknown key). -/
def specGet (p : PhoneRec) (s : String) : Option String :=
  if s = "display" then p.display
  else if s = "battery" then p.battery
  else if s = "camera" then p.camera
  else if s = "ram" then p.ram
  else if s = "storage" then p.storage
  else if s = "chipset" then p.chipset
  else if s = "price" then p.price
  else none

/-! ### Numeric field extraction (`re.search` patterns of `agents.py`) -/

/-- `re.search(r'(\d+)\s*<unit>', s[, re.IGNORECASE])`: value of the first
maximal digit run that is followed, after optional whitespace, by the unit
literal (a shorter digit run would be followed by a digit and can never
continue into `\s*<unit>`, so the scan below is exact). -/
def reFindNumUnit (unit : List Char) (ci : Bool) (s : List Char) : Option Nat :=
  (List.range s.length).findSome? fun i =>
    let k := digitRun s i
    if k = 0 then none
    else
      let j2 := (i + k) + wsRun s (i + k)
      let seg := (s.drop j2).take unit.length
      if (if ci then lowerL seg = lowerL unit else seg = unit) then
        some (digitsVal ((s.drop i).take k))
      else none

/-- `re.search(r'\$(\d+)', s)`: digits directly after the first `$` that is
followed by at least one digit. -/
def reFindDollarNum (s : List Char) : Option Nat :=
  (List.range s.length).findSome? fun i =>
    if s[i]? = some '$' then
      let k := digitRun s (i + 1)
      if k > 0 then some (digitsVal ((s.drop (i + 1)).take k)) else none
    else none

/-! ### Criteria extraction (`RAGModule.retrieve_specs`, lines 240-269) -/

/-- The derived criteria dictionary: optional `price_max`, optional `focus`. -/
structure Criteria where
  price_max : Option ℚ := none
  focus : Option String := none
deriving DecidableEq, Repr

/-- `re.search(r'<kw>\s*\$?(\d+)', query_lower)` for `kw` = `under`/`below`:
value of the first occurrence of the keyword followed by optional whitespace,
an optional `$`, and at least one digit. -/
def searchPriceKw (kw : List Char) (q : List Char) : Option Nat :=
  (List.range (q.length + 1)).findSome? fun i =>
    if litAt kw q i then
      let j2 := (i + kw.length) + wsRun q (i + kw.length)
      let j3 := if q[j2]? = some '$' then j2 + 1 else j2
      let k := digitRun q j3
      if k > 0 then some (digitsVal ((q.drop j3).take k)) else none
    else none

/-- Intent classification of `retrieve_specs` (keyword groups in source
precedence order). -/
def queryTypeOf (ql : List Char) : String :=
  if ["compare", "versus", "vs", "difference", "better"].any
      (fun w => containsSub ql w.data) then "comparison"
  else if ["best", "recommend", "which", "should i", "top"].any
      (fun w => containsSub ql w.data) then "recommendation"
  else if ["spec", "feature", "detail", "what is", "what are", "tell me about"].any
      (fun w => containsSub ql w.data) then "specs"
  else "general"

/-- The battery focus keyword group (`'battery' in q or 'long lasting' in q`). -/
def hasBatteryKw (ql : List Char) : Bool :=
  containsSub ql "battery".data || containsSub ql "long lasting".data

/-- The camera focus keyword group. -/
def hasCameraKw (ql : List Char) : Bool :=
  containsSub ql "camera".data || containsSub ql "photo".data ||
    containsSub ql "photography".data

/-- The display focus keyword group. -/
def hasDisplayKw (ql : List Char) : Bool :=
  containsSub ql "display".data || containsSub ql "screen".data

/-- Criteria extraction of `retrieve_specs`: the `under` price pattern, then
the `below` price pattern (overwriting), then the three focus keyword groups
in source order (battery, then camera, then display, each overwriting). -/
def extractCriteria (ql : List Char) : Criteria :=
  let pm : Option ℚ := (searchPriceKw "under".data ql).map fun n => (n : ℚ)
  let pm : Option ℚ :=
    match searchPriceKw "below".data ql with
    | some n => some (n : ℚ)
    | none => pm
  let f : Option String := none
  let f := if hasBatteryKw ql then some "battery" else f
  let f := if hasCameraKw ql then some "camera" else f
  let f := if hasDisplayKw ql then some "display" else f
  ⟨pm, f⟩

/-- The criteria produced by `retrieve_specs` for a raw query. -/
def retrieveCriteria (query : String) : Criteria := extractCriteria (lowerL query.data)

/-- The `query_type` produced by `retrieve_specs` for a raw query. -/
def retrieveQueryType (query : String) : String := queryTypeOf (lowerL query.data)

/-! ### Candidate scorer (`DataExtractorAgent._score_phone`)

A Python `None` in an accessed field reaches `re.search`/`str.lower` and
raises `TypeError`; the raised case is modelled as `none`.  `battery`,
`camera` and `ram` are always accessed; `display` only under the display
focus; `price` only when a `price_max` criterion is present. -/

/-- The budget adjustment block of `_score_phone` (executed last). -/
def priceAdjust (price : Option String) (pm : Option ℚ) (s : ℚ) : Option ℚ :=
  match pm with
  | none => some s
  | some pmax =>
    match price with
    | none => none
    | some ps =>
      match reFindDollarNum ps.data with
      | some pr => if (pr : ℚ) ≤ pmax then some (s + 3) else some (s - 5)
      | none => some s

/-- `DataExtractorAgent._score_phone(phone, focus, criteria)`. -/
def scorePhone (p : PhoneRec) (focus : String) (pm : Option ℚ) : Option ℚ :=
  match p.battery, p.camera, p.ram with
  | some bs, some cs, some rs =>
    let battM := reFindNumUnit "mAh".data true bs.data
    let camM := reFindNumUnit "MP".data true cs.data
    let ramM := reFindNumUnit "GB".data true rs.data
    let base : ℚ :=
      (match battM with | some b => (b : ℚ) / 1000 | none => 0) +
      (match camM with | some m => (m : ℚ) / 50 | none => 0) +
      (match ramM with | some g => (g : ℚ) / 4 | none => 0)
    if focus = "battery" then
      priceAdjust p.price pm (base + (match battM with | some b => (b : ℚ) / 500 | none => 0))
    else if focus = "camera" then
      priceAdjust p.price pm (base + (match camM with | some m => (m : ℚ) / 25 | none => 0))
    else if focus = "display" then
      match p.display with
      | some ds =>
        let dl := lowerL ds.data
        priceAdjust p.price pm
          (base + (if containsSub dl "120hz".data then 2 else 0) +
            (if containsSub dl "amoled".data then 1 else 0))
      | none => none
    else priceAdjust p.price pm base
  | _, _, _ => none

/-! ### Ranker (`DataExtractorAgent._prepare_recommendations`) -/

/-- The recommendation payload dictionary. -/
structure RecData where
  criteria : Criteria
  candidates : List PhoneRec
  top_picks : List PhoneRec
deriving DecidableEq, Repr

/-- The `for phone in phones` scoring loop of `_prepare_recommendations`
(the first scoring exception aborts the whole call). -/
def scoreList (focus : String) (pm : Option ℚ) : List PhoneRec → Option (List (PhoneRec × ℚ))
  | [] => some []
  | p :: rest =>
    match scorePhone p focus pm with
    | none => none
    | some s => (scoreList focus pm rest).map fun t => (p, s) :: t

/-- `_prepare_recommendations(phones, criteria)`: score every record, sort
stably by descending score, keep the first three. -/
def prepareRecommendations (phones : List PhoneRec) (crit : Criteria) : Option RecData := do
  let focus := crit.focus.getD "overall"
  let scored ← scoreList focus crit.price_max phones
  let sorted := sortDescBy (fun x => x.2) scored
  some ⟨crit, phones, (sorted.take 3).map Prod.fst⟩

/-! ### Comparison differencer (`DataExtractorAgent._prepare_comparison`) -/

/-- One entry of the `differences` list (values are the raw field values;
the `'N/A'` defaults in the source are dead because `to_dict` emits every
key). -/
structure DiffEntry where
  spec : String
  phone1_value : Option String
  phone2_value : Option String
deriving DecidableEq, Repr

/-- `specs_to_compare`, the canonical attribute order. -/
def specsToCompare : List String :=
  ["display", "battery", "camera", "ram", "storage", "chipset", "price"]

/-- The `differences` loop: keep, in list order, the attributes whose two
values are unequal. -/
def diffEntries (a b : String → Option String) (l : List String) : List DiffEntry :=
  l.filterMap fun s => if a s ≠ b s then some ⟨s, a s, b s⟩ else none

/-- The comparison payload dictionary. -/
structure CompData where
  phone1 : PhoneRec
  phone2 : PhoneRec
  differences : List DiffEntry
deriving DecidableEq, Repr

/-- `_prepare_comparison(phones)` (`none` models the empty dictionary
returned for fewer than two records). -/
def prepareComparison (phones : List PhoneRec) : Option CompData :=
  match phones with
  | p1 :: p2 :: _ => some ⟨p1, p2, diffEntries (specGet p1) (specGet p2) specsToCompare⟩
  | _ => none

/-! ### Review generator (`ReviewGeneratorAgent`)

The structured payload handed from the data extractor to the review
generator.  The source file's bullet and emoji literals are mojibake
(UTF-8 read back as single-byte text and re-encoded); the exact code points
of the source are reproduced below as escapes. -/

structure ExtractedData where
  query : String
  query_type : String
  criteria : Criteria
  phones : List PhoneRec
  comparison_data : Option CompData := none
  recommendation_data : Option RecData := none

/-- Python `f"{x}"` rendering of a possibly-`None` field. -/
def fmtO (o : Option String) : String :=
  match o with
  | some s => s
  | none => "None"

/-- The `"â€¢"` bullet of the source (code points 00E2 20AC 00A2). -/
def bulletStr : String := "â€¢"

/-- The zero-record message at the top of `generate_review`. -/
def noPhonesMsg : String :=
  "I couldn't find any Samsung phones matching your query. Please try rephrasing your question or ask about specific models like Galaxy S24 Ultra, S23, A54, etc."

/-- The zero-record message of `_generate_general_review`. -/
def pleaseAskMsg : String :=
  "Please ask about specific Samsung phone models or describe what you're looking for."

/-- `ReviewGeneratorAgent._generate_specs_review`. -/
def specsReview (d : ExtractedData) : String :=
  match d.phones with
  | [] => "No phones found matching your query."
  | phone :: _ =>
    fmtO phone.model_name ++ " specifications:\n\n" ++
    bulletStr ++ " Display: " ++ fmtO phone.display ++ "\n" ++
    bulletStr ++ " Battery: " ++ fmtO phone.battery ++ "\n" ++
    bulletStr ++ " Camera: " ++ fmtO phone.camera ++ "\n" ++
    bulletStr ++ " RAM: " ++ fmtO phone.ram ++ "\n" ++
    bulletStr ++ " Storage: " ++ fmtO phone.storage ++ "\n" ++
    bulletStr ++ " Chipset: " ++ fmtO phone.chipset ++ "\n" ++
    bulletStr ++ " OS: " ++ fmtO phone.os ++ "\n" ++
    bulletStr ++ " Price: " ++ fmtO phone.price ++ "\n" ++
    bulletStr ++ " Released: " ++ fmtO phone.release_date

/-- Python `int()` truncation of a rational toward zero. -/
def pyTrunc (q : ℚ) : Int := if q < 0 then -((-q).floor) else q.floor

/-- One numbered entry of the recommendation list (`i` starts at 1). -/
def recLine (i : Nat) (phone : PhoneRec) : String :=
  toString i ++ ". **" ++ fmtO phone.model_name ++ "**\n" ++
  "   " ++ bulletStr ++ " Price: " ++ fmtO phone.price ++ "\n" ++
  "   " ++ bulletStr ++ " Battery: " ++ fmtO phone.battery ++ "\n" ++
  "   " ++ bulletStr ++ " Camera: " ++ fmtO phone.camera ++ "\n" ++
  "   " ++ bulletStr ++ " Display: " ++ fmtO phone.display ++ "\n\n"

/-- The `enumerate(top_picks[:3], 1)` loop body. -/
def recLinesGo (i : Nat) : List PhoneRec → String
  | [] => ""
  | p :: rest => recLine i p ++ recLinesGo (i + 1) rest

/-- `ReviewGeneratorAgent._generate_recommendation_review`. -/
def recommendationReview (d : ExtractedData) : String :=
  let top_picks :=
    match d.recommendation_data with
    | some rd => rd.top_picks
    | none => d.phones.take 3
  match top_picks with
  | [] => "I couldn't find phones matching your criteria."
  | first :: _ =>
    let focus := d.criteria.focus.getD "overall"
    let r0 := "Based on your requirements, here are my recommendations:\n\n"
    let r1 :=
      match d.criteria.price_max with
      | some pm =>
        if pm ≠ 0 then "Best Samsung phones under $" ++ toString (pyTrunc pm) ++ ":\n\n" else r0
      | none => r0
    let r2 :=
      if focus = "battery" then "Best Samsung phones for battery life:\n\n"
      else if focus = "camera" then "Best Samsung phones for photography:\n\n"
      else r1
    r2 ++ recLinesGo 1 (top_picks.take 3) ++
      "Top recommendation: " ++ fmtO first.model_name ++ " offers the best value for your needs."

/-- The source's `"ðŸ“±"` (00F0 0178 201C 00B1). -/
def emojiDisplay : String := "ðŸ“±"

/-- The source's `"ðŸ”‹"` (00F0 0178 201D 2039). -/
def emojiBattery : String := "ðŸ”‹"

/-- The source's `"ðŸ“·"` (00F0 0178 201C 00B7). -/
def emojiCamera : String := "ðŸ“·"

/-- The source's `"ðŸ’°"` (00F0 0178 2019 00B0). -/
def emojiPrice : String := "ðŸ’°"

/-- The source's `"ðŸ“"` (00F0 0178 201C: the fourth byte of the memo emoji
was lost in the file's double encoding). -/
def emojiMemo : String := "ðŸ“"

/-- The attribute blocks built unconditionally by
`_generate_comparison_review` before its recommendation sentence. -/
def comparisonHeader (phone1 phone2 : PhoneRec) : String :=
  "Comparing " ++ fmtO phone1.model_name ++ " vs " ++ fmtO phone2.model_name ++ ":\n\n" ++
  emojiDisplay ++ " Display:\n" ++
  "  " ++ bulletStr ++ " " ++ fmtO phone1.model_name ++ ": " ++ fmtO phone1.display ++ "\n" ++
  "  " ++ bulletStr ++ " " ++ fmtO phone2.model_name ++ ": " ++ fmtO phone2.display ++ "\n\n" ++
  emojiBattery ++ " Battery:\n" ++
  "  " ++ bulletStr ++ " " ++ fmtO phone1.model_name ++ ": " ++ fmtO phone1.battery ++ "\n" ++
  "  " ++ bulletStr ++ " " ++ fmtO phone2.model_name ++ ": " ++ fmtO phone2.battery ++ "\n\n" ++
  emojiCamera ++ " Camera:\n" ++
  "  " ++ bulletStr ++ " " ++ fmtO phone1.model_name ++ ": " ++ fmtO phone1.camera ++ "\n" ++
  "  " ++ bulletStr ++ " " ++ fmtO phone2.model_name ++ ": " ++ fmtO phone2.camera ++ "\n\n" ++
  emojiPrice ++ " Price:\n" ++
  "  " ++ bulletStr ++ " " ++ fmtO phone1.model_name ++ ": " ++ fmtO phone1.price ++ "\n" ++
  "  " ++ bulletStr ++ " " ++ fmtO phone2.model_name ++ ": " ++ fmtO phone2.price ++ "\n\n" ++
  emojiMemo ++ " Recommendation:\n"

/-- `ReviewGeneratorAgent._generate_comparison_review`; `none` models the
`TypeError` raised when a focus comparison reaches a `None` camera or
battery field. -/
def comparisonReview (d : ExtractedData) : Option String :=
  let fallback : Option String :=
    if d.phones.length = 1 then some (specsReview d)
    else some "Please specify two phones to compare."
  match d.comparison_data with
  | none => fallback
  | some cd =>
    if d.phones.length < 2 then fallback
    else
      let phone1 := cd.phone1
      let phone2 := cd.phone2
      let focus := d.criteria.focus.getD "overall"
      let header := comparisonHeader phone1 phone2
      if focus = "camera" || containsSub (lowerL d.query.data) "photo".data then do
        let c1 ← phone1.camera
        let c2 ← phone2.camera
        match reFindNumUnit "MP".data false c1.data, reFindNumUnit "MP".data false c2.data with
        | some mp1, some mp2 =>
          if mp1 > mp2 then
            some (header ++ fmtO phone1.model_name ++ " has a better camera (" ++
              toString mp1 ++ "MP vs " ++ toString mp2 ++ "MP) and is recommended for photography.")
          else if mp2 > mp1 then
            some (header ++ fmtO phone2.model_name ++ " has a better camera (" ++
              toString mp2 ++ "MP vs " ++ toString mp1 ++ "MP) and is recommended for photography.")
          else
            some (header ++ "Both phones have similar camera capabilities. Consider other factors like price and features.")
        | _, _ => some header
      else if focus = "battery" then do
        let b1 ← phone1.battery
        let b2 ← phone2.battery
        match reFindNumUnit "mAh".data false b1.data, reFindNumUnit "mAh".data false b2.data with
        | some mah1, some mah2 =>
          if mah1 > mah2 then
            some (header ++ fmtO phone1.model_name ++ " has better battery life (" ++
              toString mah1 ++ "mAh vs " ++ toString mah2 ++ "mAh).")
          else if mah2 > mah1 then
            some (header ++ fmtO phone2.model_name ++ " has better battery life (" ++
              toString mah2 ++ "mAh vs " ++ toString mah1 ++ "mAh).")
          else some (header ++ "Both phones have similar battery capacity.")
        | _, _ => some header
      else
        some (header ++ fmtO phone1.model_name ++ " is the newer model with improved overall performance and features.")

/-- `ReviewGeneratorAgent._generate_general_review`. -/
def generalReview (d : ExtractedData) : String :=
  if d.phones.length = 1 then specsReview d
  else if 2 ≤ d.phones.length then recommendationReview d
  else pleaseAskMsg

/-- `ReviewGeneratorAgent._generate_with_llm` with the two external model
calls abstracted into one oracle `f` (`none`: every generative attempt
failed); on failure the source falls back to the comparison, recommendation
or specs template (the `general` intent falls to the specs template here). -/
def generateWithLLM (f : ExtractedData → Option String) (d : ExtractedData) : Option String :=
  match f d with
  | some t => some t
  | none =>
    if d.query_type = "comparison" then comparisonReview d
    else if d.query_type = "recommendation" then some (recommendationReview d)
    else some (specsReview d)

/-- `ReviewGeneratorAgent.generate_review`; `llm = none` models an agent
constructed without an API key (template-only fallback). -/
def generate_review (llm : Option (ExtractedData → Option String))
    (d : ExtractedData) : Option String :=
  if d.phones = [] then some noPhonesMsg
  else
    match llm with
    | some f => generateWithLLM f d
    | none =>
      if d.query_type = "comparison" then comparisonReview d
      else if d.query_type = "recommendation" then some (recommendationReview d)
      else if d.query_type = "specs" then some (specsReview d)
      else some (generalReview d)

/-! ### Lemmas: the stable descending sort -/

theorem insertDesc_perm {α β : Type} [LinearOrder β] (key : α → β) (x : α) (l : List α) :
    List.Perm (insertDesc key x l) (x :: l) := by
  induction l with
  | nil => exact List.Perm.refl _
  | cons y ys ih =>
    by_cases h : key x < key y
    · simpa [insertDesc, h] using (List.Perm.cons y ih).trans (List.Perm.swap x y ys)
    · simp [insertDesc, h]

theorem sortDescBy_perm {α β : Type} [LinearOrder β] (key : α → β) (l : List α) :
    List.Perm (sortDescBy key l) l := by
  induction l with
  | nil => exact List.Perm.refl _
  | cons x xs ih => exact (insertDesc_perm key x (sortDescBy key xs)).trans (ih.cons x)

theorem insertDesc_pairwise {α β : Type} [LinearOrder β] (key : α → β) (x : α) (l : List α)
    (h : l.Pairwise fun a b => key b ≤ key a) :
    (insertDesc key x l).Pairwise fun a b => key b ≤ key a := by
  induction l with
  | nil => simp [insertDesc]
  | cons y ys ih =>
    rcases List.pairwise_cons.mp h with ⟨hy, hys⟩
    by_cases hxy : key x < key y
    · have hmem : ∀ z ∈ insertDesc key x ys, key z ≤ key y := by
        intro z hz
        rcases List.mem_cons.mp ((insertDesc_perm key x ys).mem_iff.mp hz) with hz1 | hz2
        · exact hz1 ▸ le_of_lt hxy
        · exact hy z hz2
      simpa [insertDesc, hxy] using List.pairwise_cons.mpr ⟨hmem, ih hys⟩
    · have hx : ∀ z ∈ y :: ys, key z ≤ key x := by
        intro z hz
        rcases List.mem_cons.mp hz with hz1 | hz2
        · exact hz1 ▸ not_lt.mp hxy
        · exact le_trans (hy z hz2) (not_lt.mp hxy)
      simpa [insertDesc, hxy] using List.pairwise_cons.mpr ⟨hx, h⟩

theorem sortDescBy_pairwise {α β : Type} [LinearOrder β] (key : α → β) (l : List α) :
    (sortDescBy key l).Pairwise fun a b => key b ≤ key a := by
  induction l with
  | nil => simp [sortDescBy]
  | cons x xs ih => exact insertDesc_pairwise key x _ ih

theorem insertDesc_filter_key {α β : Type} [LinearOrder β] (key : α → β) (x : α) (k : β)
    (l : List α) :
    (insertDesc key x l).filter (fun a => key a = k) =
      if key x = k then x :: l.filter (fun a => key a = k)
      else l.filter (fun a => key a = k) := by
  induction l with
  | nil => by_cases hx : key x = k <;> simp [insertDesc, hx]
  | cons y ys ih =>
    simp only [insertDesc]
    by_cases hxy : key x < key y
    · rw [if_pos hxy]
      by_cases hy : key y = k
      · have hx : ¬ key x = k := by
          intro hx
          rw [hx, hy] at hxy
          exact lt_irrefl k hxy
        simp [List.filter_cons, ih, hx, hy]
      · by_cases hx : key x = k <;> simp [List.filter_cons, ih, hx, hy]
    · rw [if_neg hxy]
      by_cases hx : key x = k <;> simp [List.filter_cons, hx]

theorem sortDescBy_filter_key {α β : Type} [LinearOrder β] (key : α → β) (k : β) (l : List α) :
    (sortDescBy key l).filter (fun a => key a = k) = l.filter (fun a => key a = k) := by
  induction l with
  | nil => rfl
  | cons x xs ih =>
    by_cases hx : key x = k <;>
      simp [sortDescBy, insertDesc_filter_key, hx, List.filter_cons, ih]

/-! ### Lemmas: the selection loops of `extract_phone_names` -/

theorem selectLoop_mem (t : Nat) (x : String) :
    ∀ (l : List (String × Nat)) (seen : List String),
      x ∈ selectLoop t l seen ↔ x ∉ seen ∧ ∃ c, (x, c) ∈ l ∧ t ≤ c := by
  intro l
  induction l with
  | nil => simp [selectLoop]
  | cons p rest ih =>
    intro seen
    obtain ⟨n, c⟩ := p
    by_cases h : t ≤ c ∧ n ∉ seen
    · simp only [selectLoop, if_pos h, List.mem_cons, ih]
      constructor
      · rintro (rfl | ⟨hx, c', hc', htc'⟩)
        · exact ⟨h.2, c, Or.inl rfl, h.1⟩
        · exact ⟨fun hs => hx (Or.inr hs), c', Or.inr hc', htc'⟩
      · rintro ⟨hx, c', hc' | hc', htc'⟩
        · exact Or.inl (congrArg Prod.fst hc')
        · by_cases hxn : x = n
          · exact Or.inl hxn
          · exact Or.inr ⟨fun hs => hs.elim hxn hx, c', hc', htc'⟩
    · simp only [selectLoop, if_neg h, List.mem_cons, ih]
      constructor
      · rintro ⟨hx, c', hc', htc'⟩
        exact ⟨hx, c', Or.inr hc', htc'⟩
      · rintro ⟨hx, c', hc' | hc', htc'⟩
        · obtain ⟨rfl, rfl⟩ := Prod.mk.inj hc'
          exact absurd ⟨htc', hx⟩ h
        · exact ⟨hx, c', hc', htc'⟩

theorem selectLoop_nodup (t : Nat) :
    ∀ (l : List (String × Nat)) (seen : List String), (selectLoop t l seen).Nodup := by
  intro l
  induction l with
  | nil => intro seen; simp [selectLoop]
  | cons p rest ih =>
    intro seen
    obtain ⟨n, c⟩ := p
    by_cases h : t ≤ c ∧ n ∉ seen
    · simp only [selectLoop, if_pos h, List.nodup_cons]
      refine ⟨fun hmem => ?_, ih _⟩
      exact ((selectLoop_mem t n rest (n :: seen)).mp hmem).1 (List.mem_cons_self n seen)
    · simpa [selectLoop, if_neg h] using ih seen

theorem selectLoop_sublist (t : Nat) :
    ∀ (l : List (String × Nat)) (seen : List String),
      ∃ l', List.Sublist l' l ∧ selectLoop t l seen = l'.map Prod.fst ∧ ∀ p ∈ l', t ≤ p.2 := by
  intro l
  induction l with
  | nil => intro seen; exact ⟨[], by simp [selectLoop]⟩
  | cons p rest ih =>
    intro seen
    obtain ⟨n, c⟩ := p
    by_cases h : t ≤ c ∧ n ∉ seen
    · obtain ⟨l', hsub, heq, hall⟩ := ih (n :: seen)
      refine ⟨(n, c) :: l', List.Sublist.cons₂ _ hsub, ?_, ?_⟩
      · simp [selectLoop, if_pos h, heq]
      · intro q hq
        rcases List.mem_cons.mp hq with h1 | h2
        · rw [h1]
          exact h.1
        · exact hall q h2
    · obtain ⟨l', hsub, heq, hall⟩ := ih seen
      exact ⟨l', List.Sublist.cons _ hsub, by simp [selectLoop, if_neg h, heq], hall⟩

/-! ### Lemmas: the difference list -/

theorem mem_diffEntries (a b : String → Option String) (l : List String) (e : DiffEntry) :
    e ∈ diffEntries a b l ↔ e.spec ∈ l ∧ a e.spec ≠ b e.spec ∧
      e = ⟨e.spec, a e.spec, b e.spec⟩ := by
  simp only [diffEntries, List.mem_filterMap]
  constructor
  · rintro ⟨s, hs, hfs⟩
    by_cases hab : a s ≠ b s
    · rw [if_pos hab] at hfs
      obtain rfl := Option.some_inj.mp hfs
      exact ⟨hs, hab, rfl⟩
    · rw [if_neg hab] at hfs
      exact absurd hfs (by simp)
  · rintro ⟨hs, hab, he⟩
    refine ⟨e.spec, hs, ?_⟩
    rw [if_pos hab, ← he]

theorem diffEntries_spec_sublist (a b : String → Option String) :
    ∀ l : List String, List.Sublist ((diffEntries a b l).map DiffEntry.spec) l := by
  intro l
  induction l with
  | nil => simp [diffEntries]
  | cons s rest ih =>
    by_cases hab : a s = b s
    · simpa [diffEntries, List.filterMap_cons, hab] using List.Sublist.cons s ih
    · simpa [diffEntries, List.filterMap_cons, hab] using List.Sublist.cons₂ s ih

theorem diffEntries_swap (a b : String → Option String) :
    ∀ l : List String, diffEntries b a l =
      (diffEntries a b l).map fun e => ⟨e.spec, e.phone2_value, e.phone1_value⟩ := by
  intro l
  induction l with
  | nil => rfl
  | cons s rest ih =>
    by_cases hab : a s = b s
    · simp [diffEntries, List.filterMap_cons, hab] at ih ⊢
      exact ih
    · have hba : ¬ b s = a s := fun hc => hab hc.symm
      simp [diffEntries, List.filterMap_cons, hab, hba] at ih ⊢
      exact ih

/-! ### Lemmas: the resolver pipeline -/

/-- The sorted candidate list of `extract_phone_names`. -/
def sortedMatches (qn : List Char) (catalog : List String) : List (String × Nat) :=
  sortDescBy (fun p => p.2)
    (catalog.filterMap fun n => (phoneConf qn n).map fun c => (n, c))

theorem extract_phone_names_eq (query : String) (catalog : List String) :
    extract_phone_names query catalog =
      if selectLoop 80 (sortedMatches (normQuery query) catalog) [] = [] then
        selectLoop 30 (sortedMatches (normQuery query) catalog) []
      else selectLoop 80 (sortedMatches (normQuery query) catalog) [] := rfl

theorem mem_sortedMatches (qn : List Char) (catalog : List String) (x : String) (c : Nat) :
    (x, c) ∈ sortedMatches qn catalog ↔ x ∈ catalog ∧ phoneConf qn x = some c := by
  rw [sortedMatches, (sortDescBy_perm _ _).mem_iff]
  simp only [List.mem_filterMap, Option.map_eq_some']
  constructor
  · rintro ⟨a, ha, k, hk, he⟩
    obtain ⟨rfl, rfl⟩ := Prod.mk.inj he
    exact ⟨ha, hk⟩
  · rintro ⟨hx, hc⟩
    exact ⟨x, hx, c, hc, rfl⟩

theorem mem_selectLoop_sortedMatches (qn : List Char) (catalog : List String) (t : Nat)
    (x : String) :
    x ∈ selectLoop t (sortedMatches qn catalog) [] ↔
      ∃ c, (x ∈ catalog ∧ phoneConf qn x = some c) ∧ t ≤ c := by
  rw [selectLoop_mem]
  simp only [List.not_mem_nil, not_false_iff, true_and]
  constructor
  · rintro ⟨c, hc, htc⟩
    exact ⟨c, (mem_sortedMatches qn catalog x c).mp hc, htc⟩
  · rintro ⟨c, hc, htc⟩
    exact ⟨c, (mem_sortedMatches qn catalog x c).mpr hc, htc⟩

theorem selectLoop_sortedMatches_pairwise (qn : List Char) (catalog : List String) (t : Nat) :
    (selectLoop t (sortedMatches qn catalog) []).Pairwise
      (fun a b => ∀ ca cb, phoneConf qn a = some ca → phoneConf qn b = some cb → cb ≤ ca) := by
  obtain ⟨l', hsub, heq, _⟩ := selectLoop_sublist t (sortedMatches qn catalog) []
  rw [heq]
  have h1 : l'.Pairwise fun p q : String × Nat => q.2 ≤ p.2 :=
    (sortDescBy_pairwise (fun p : String × Nat => p.2) _).sublist hsub
  have h2 : ∀ p ∈ l', phoneConf qn p.1 = some p.2 := by
    intro p hp
    obtain ⟨p1, p2⟩ := p
    exact ((mem_sortedMatches qn catalog p1 p2).mp (hsub.subset hp)).2
  have h3 : l'.Pairwise fun p q : String × Nat =>
      phoneConf qn p.1 = some p.2 ∧ phoneConf qn q.1 = some q.2 ∧ q.2 ≤ p.2 :=
    List.Pairwise.imp_of_mem (fun hp hq hr => ⟨h2 _ hp, h2 _ hq, hr⟩) h1
  refine List.Pairwise.map Prod.fst ?_ h3
  rintro p q ⟨hp, hq, hle⟩ ca cb hca hcb
  have e1 : p.2 = ca := Option.some_inj.mp (hp.symm.trans hca)
  have e2 : q.2 = cb := Option.some_inj.mp (hq.symm.trans hcb)
  rw [← e1, ← e2]
  exact hle

/-- C2 (claim): the resolver output is deduplicated and sorted by descending
confidence; when some candidate reaches confidence 80, the output consists of
exactly the catalog names with a candidate of confidence `≥ 80`
(soundness and completeness of the high tier); otherwise it consists of
exactly the catalog names with a candidate of confidence `≥ 30` (the
fallback tier); and it is empty — not an error — when nothing reaches 30. -/
theorem extract_phone_names_policy (query : String) (catalog : List String) :
    (extract_phone_names query catalog).Nodup ∧
    (extract_phone_names query catalog).Pairwise
      (fun a b => ∀ ca cb, phoneConf (normQuery query) a = some ca →
        phoneConf (normQuery query) b = some cb → cb ≤ ca) ∧
    ((∃ n ∈ catalog, ∃ c, phoneConf (normQuery query) n = some c ∧ 80 ≤ c) →
      ∀ n, n ∈ extract_phone_names query catalog ↔
        n ∈ catalog ∧ ∃ c, phoneConf (normQuery query) n = some c ∧ 80 ≤ c) ∧
    ((¬ ∃ n ∈ catalog, ∃ c, phoneConf (normQuery query) n = some c ∧ 80 ≤ c) →
      ∀ n, n ∈ extract_phone_names query catalog ↔
        n ∈ catalog ∧ ∃ c, phoneConf (normQuery query) n = some c ∧ 30 ≤ c) ∧
    ((∀ n ∈ catalog, ∀ c, phoneConf (normQuery query) n = some c → c < 30) →
      extract_phone_names query catalog = []) := by
  classical
  refine ⟨?_, ?_, ?_, ?_, ?_⟩
  · rw [extract_phone_names_eq]
    split <;> exact selectLoop_nodup _ _ _
  · rw [extract_phone_names_eq]
    split <;> exact selectLoop_sortedMatches_pairwise _ _ _
  · rintro ⟨n0, hn0, c0, hc0, h80⟩ n
    rw [extract_phone_names_eq]
    have hhigh : ¬ selectLoop 80 (sortedMatches (normQuery query) catalog) [] = [] := by
      intro hnil
      have : n0 ∈ selectLoop 80 (sortedMatches (normQuery query) catalog) [] :=
        (mem_selectLoop_sortedMatches _ _ 80 n0).mpr ⟨c0, ⟨hn0, hc0⟩, h80⟩
      rw [hnil] at this
      exact List.not_mem_nil n0 this
    rw [if_neg hhigh]
    constructor
    · intro hn
      obtain ⟨c, hc, htc⟩ := (mem_selectLoop_sortedMatches _ _ 80 n).mp hn
      exact ⟨hc.1, c, hc.2, htc⟩
    · rintro ⟨hcat, c, hc, htc⟩
      exact (mem_selectLoop_sortedMatches _ _ 80 n).mpr ⟨c, ⟨hcat, hc⟩, htc⟩
  · intro hno n
    rw [extract_phone_names_eq]
    have hhigh : selectLoop 80 (sortedMatches (normQuery query) catalog) [] = [] := by
      rcases List.eq_nil_or_concat (selectLoop 80 (sortedMatches (normQuery query) catalog) [])
        with h | ⟨l0, x, hx⟩
      · exact h
      · exfalso
        have hxmem : x ∈ selectLoop 80 (sortedMatches (normQuery query) catalog) [] := by
          rw [hx, List.concat_eq_append]; exact List.mem_append_right l0 (List.mem_singleton_self x)
        obtain ⟨c, hc, htc⟩ := (mem_selectLoop_sortedMatches _ _ 80 x).mp hxmem
        exact hno ⟨x, hc.1, c, hc.2, htc⟩
    rw [if_pos hhigh]
    constructor
    · intro hn
      obtain ⟨c, hc, htc⟩ := (mem_selectLoop_sortedMatches _ _ 30 n).mp hn
      exact ⟨hc.1, c, hc.2, htc⟩
    · rintro ⟨hcat, c, hc, htc⟩
      exact (mem_selectLoop_sortedMatches _ _ 30 n).mpr ⟨c, ⟨hcat, hc⟩, htc⟩
  · intro hall
    rw [extract_phone_names_eq]
    have hlow : selectLoop 30 (sortedMatches (normQuery query) catalog) [] = [] := by
      rw [List.eq_nil_iff_forall_not_mem]
      intro x hx
      obtain ⟨c, hc, htc⟩ := (mem_selectLoop_sortedMatches _ _ 30 x).mp hx
      exact absurd htc (not_le.mpr (hall x hc.1 c hc.2))
    have hhigh : selectLoop 80 (sortedMatches (normQuery query) catalog) [] = [] := by
      rw [List.eq_nil_iff_forall_not_mem]
      intro x hx
      obtain ⟨c, hc, htc⟩ := (mem_selectLoop_sortedMatches _ _ 80 x).mp hx
      exact absurd (le_trans (by norm_num) htc) (not_le.mpr (hall x hc.1 c hc.2))
    rw [if_pos hhigh]
    exact hlow

/-- C2 (witness): on the query `"Galaxy S24"` with a one-entry catalog whose
only candidate is the weak (confidence-30) `"Galaxy S24 Ultra"` match, the
policy theorem's fallback-tier characterisation puts that name in the
output (completeness), and the output is duplicate-free. -/
theorem extract_phone_names_policy_witness :
    (extract_phone_names "Galaxy S24" ["Galaxy S24 Ultra"]).Nodup ∧
    "Galaxy S24 Ultra" ∈ extract_phone_names "Galaxy S24" ["Galaxy S24 Ultra"] := by
  have hconf : phoneConf (normQuery "Galaxy S24") "Galaxy S24 Ultra" = some 30 := by decide
  have hno : ¬ ∃ n ∈ ["Galaxy S24 Ultra"], ∃ c,
      phoneConf (normQuery "Galaxy S24") n = some c ∧ 80 ≤ c := by
    rintro ⟨n, hn, c, hc, h80⟩
    rw [List.mem_singleton] at hn
    subst hn
    have : c = 30 := Option.some_inj.mp (hc.symm.trans hconf)
    rw [this] at h80
    exact absurd h80 (by norm_num)
  refine ⟨(extract_phone_names_policy "Galaxy S24" ["Galaxy S24 Ultra"]).1, ?_⟩
  exact ((extract_phone_names_policy "Galaxy S24" ["Galaxy S24 Ultra"]).2.2.2.1 hno
    "Galaxy S24 Ultra").mpr ⟨List.mem_singleton_self _, 30, hconf, by norm_num⟩

/-- C1 (claim): against any catalog containing `"Galaxy S24 Ultra"`, the
query `"Galaxy S24"` records the Ultra candidate only as a weak match of
confidence 30, and the Ultra can appear in the result only when no candidate
reached the `≥ 80` tier. -/
theorem suffix_must_not_leak (catalog : List String)
    (hcat : "Galaxy S24 Ultra" ∈ catalog) :
    phoneConf (normQuery "Galaxy S24") "Galaxy S24 Ultra" = some 30 ∧
    ((∃ n ∈ catalog, ∃ c, phoneConf (normQuery "Galaxy S24") n = some c ∧ 80 ≤ c) →
      "Galaxy S24 Ultra" ∉ extract_phone_names "Galaxy S24" catalog) := by
  have hconf : phoneConf (normQuery "Galaxy S24") "Galaxy S24 Ultra" = some 30 := by decide
  refine ⟨hconf, ?_⟩
  rintro ⟨n0, hn0, c0, hc0, h80⟩ hmem
  rw [extract_phone_names_eq] at hmem
  have hhigh : ¬ selectLoop 80 (sortedMatches (normQuery "Galaxy S24") catalog) [] = [] := by
    intro hnil
    have : n0 ∈ selectLoop 80 (sortedMatches (normQuery "Galaxy S24") catalog) [] :=
      (mem_selectLoop_sortedMatches _ _ 80 n0).mpr ⟨c0, ⟨hn0, hc0⟩, h80⟩
    rw [hnil] at this
    exact List.not_mem_nil n0 this
  rw [if_neg hhigh] at hmem
  obtain ⟨c, hc, htc⟩ := (mem_selectLoop_sortedMatches _ _ 80 _).mp hmem
  have : c = 30 := Option.some_inj.mp ((hc.2.symm.trans hconf))
  rw [this] at htc
  exact absurd htc (by norm_num)

/-- C1 (witness): with `"Galaxy S24"` itself in the catalog (a confidence-100
match), the Ultra is recorded at 30 and excluded from the result. -/
theorem suffix_must_not_leak_witness :
    "Galaxy S24 Ultra" ∈ ["Galaxy S24 Ultra", "Galaxy S24"] ∧
    phoneConf (normQuery "Galaxy S24") "Galaxy S24 Ultra" = some 30 ∧
    "Galaxy S24 Ultra" ∉ extract_phone_names "Galaxy S24" ["Galaxy S24 Ultra", "Galaxy S24"] := by
  have h := suffix_must_not_leak ["Galaxy S24 Ultra", "Galaxy S24"] (by decide)
  exact ⟨by decide, h.1,
    h.2 ⟨"Galaxy S24", by decide, 100, by decide, by norm_num⟩⟩

/-! ### Lemmas: the scorer -/

theorem priceAdjust_isSome (price : Option String) (pm : Option ℚ) (s : ℚ)
    (h : pm ≠ none → price.isSome) : ∃ r, priceAdjust price pm s = some r := by
  cases pm with
  | none => exact ⟨s, rfl⟩
  | some pmax =>
    cases hps : price with
    | none => rw [hps] at h; simp at h
    | some ps =>
      cases hfd : reFindDollarNum ps.data with
      | none => exact ⟨s, by simp [priceAdjust, hfd]⟩
      | some pr =>
        by_cases hle : (pr : ℚ) ≤ pmax
        · exact ⟨s + 3, by simp [priceAdjust, hfd, hle]⟩
        · exact ⟨s - 5, by simp [priceAdjust, hfd, hle]⟩

theorem priceAdjust_mono (price : Option String) (pm : Option ℚ) (s1 s2 r1 r2 : ℚ)
    (hs : s1 ≤ s2) (h1 : priceAdjust price pm s1 = some r1)
    (h2 : priceAdjust price pm s2 = some r2) : r1 ≤ r2 := by
  cases pm with
  | none =>
    obtain rfl := Option.some_inj.mp h1
    obtain rfl := Option.some_inj.mp h2
    exact hs
  | some pmax =>
    cases price with
    | none => simp [priceAdjust] at h1
    | some ps =>
      cases hfd : reFindDollarNum ps.data with
      | none =>
        simp only [priceAdjust, hfd] at h1 h2
        obtain rfl := Option.some_inj.mp h1
        obtain rfl := Option.some_inj.mp h2
        exact hs
      | some pr =>
        by_cases hle : (pr : ℚ) ≤ pmax <;>
          simp only [priceAdjust, hfd, if_pos, if_neg, hle, ite_true, ite_false] at h1 h2 <;>
          obtain rfl := Option.some_inj.mp h1 <;>
          obtain rfl := Option.some_inj.mp h2 <;>
          linarith

theorem priceAdjust_unparseable (ps : String) (pm : Option ℚ) (s : ℚ)
    (hparse : reFindDollarNum ps.data = none) :
    priceAdjust (some ps) pm s = priceAdjust (some "") pm s := by
  cases pm with
  | none => rfl
  | some pmax => simp [priceAdjust, hparse]; rfl

/-- C3 (counterexample): a record whose `battery` value is Python `None`
reaches `re.search(pattern, None)` and raises `TypeError` (modelled `none`),
so scoring is not total over records with `None`-valued fields. -/
theorem score_raises_on_none_battery :
    scorePhone
      { battery := none, camera := some "N/A", ram := some "N/A",
        display := some "N/A", price := some "N/A" } "overall" none = none := rfl

/-- C3 (amended): scoring returns a number for every record whose accessed
fields hold strings (`battery`/`camera`/`ram` always, `display` under the
display focus, `price` under a price ceiling), and an unparseable field
contributes exactly zero to its term: replacing it by the empty string (which
parses to nothing) leaves the score unchanged. -/
theorem score_total_on_string_fields (p : PhoneRec) (focus : String) (pm : Option ℚ)
    (bs cs rs : String)
    (hb : p.battery = some bs) (hc : p.camera = some cs) (hr : p.ram = some rs)
    (hd : focus = "display" → p.display.isSome)
    (hp : pm ≠ none → p.price.isSome) :
    (∃ r, scorePhone p focus pm = some r) ∧
    (reFindNumUnit "mAh".data true bs.data = none →
      scorePhone p focus pm = scorePhone { p with battery := some "" } focus pm) ∧
    (reFindNumUnit "MP".data true cs.data = none →
      scorePhone p focus pm = scorePhone { p with camera := some "" } focus pm) ∧
    (reFindNumUnit "GB".data true rs.data = none →
      scorePhone p focus pm = scorePhone { p with ram := some "" } focus pm) ∧
    (∀ ps, p.price = some ps → reFindDollarNum ps.data = none →
      scorePhone p focus pm = scorePhone { p with price := some "" } focus pm) := by
  refine ⟨?_, ?_, ?_, ?_, ?_⟩
  · simp only [scorePhone, hb, hc, hr]
    by_cases hfb : focus = "battery"
    · simp only [hfb, ite_true]
      exact priceAdjust_isSome _ _ _ hp
    · by_cases hfc : focus = "camera"
      · simp only [hfb, hfc, ite_true, ite_false]
        exact priceAdjust_isSome _ _ _ hp
      · by_cases hfd : focus = "display"
        · cases hds : p.display with
          | none => rw [hds] at hd; simp [hfd] at hd
          | some ds =>
            simp only [hfb, hfc, hfd, hds, ite_true, ite_false]
            exact priceAdjust_isSome _ _ _ hp
        · simp only [hfb, hfc, hfd, ite_false]
          exact priceAdjust_isSome _ _ _ hp
  · intro hparse
    have h0 : reFindNumUnit "mAh".data true "".data = none := rfl
    simp [scorePhone, hb, hc, hr, hparse, h0]
  · intro hparse
    have h0 : reFindNumUnit "MP".data true "".data = none := rfl
    simp [scorePhone, hb, hc, hr, hparse, h0]
  · intro hparse
    have h0 : reFindNumUnit "GB".data true "".data = none := rfl
    simp [scorePhone, hb, hc, hr, hparse, h0]
  · intro ps hps hparse
    simp only [scorePhone, hb, hc, hr, hps]
    simp only [priceAdjust_unparseable ps pm _ hparse]

/-- C3 (amended, witness): the totality statement applied to a record whose
fields are all the unparseable string `"N/A"` (score 0). -/
theorem score_total_on_string_fields_witness :
    ∃ r, scorePhone
      { battery := some "N/A", camera := some "N/A", ram := some "N/A",
        display := some "N/A", price := some "N/A" } "overall" none = some r :=
  (score_total_on_string_fields _ "overall" none "N/A" "N/A" "N/A" rfl rfl rfl
    (fun h => by simp at h) (fun h => absurd rfl h)).1

/-- C4 (claim): scoring is monotone in the parsed battery capacity — two
records identical except for the battery string, whose parses are ordered,
have ordered scores (for every focus and criteria under which both score). -/
theorem score_monotone_battery (p : PhoneRec) (b1 b2 : String) (m1 m2 : ℕ)
    (f : String) (pm : Option ℚ) (r1 r2 : ℚ)
    (h1 : reFindNumUnit "mAh".data true b1.data = some m1)
    (h2 : reFindNumUnit "mAh".data true b2.data = some m2)
    (hlt : m1 < m2)
    (e1 : scorePhone { p with battery := some b1 } f pm = some r1)
    (e2 : scorePhone { p with battery := some b2 } f pm = some r2) :
    r1 ≤ r2 := by
  have hm : (m1 : ℚ) ≤ (m2 : ℚ) := by exact_mod_cast hlt.le
  have hdiv1 : (m1 : ℚ) / 1000 ≤ (m2 : ℚ) / 1000 := by gcongr
  have hdiv2 : (m1 : ℚ) / 500 ≤ (m2 : ℚ) / 500 := by gcongr
  cases hcs : p.camera with
  | none => simp [scorePhone, hcs] at e1
  | some cs =>
  cases hrs : p.ram with
  | none => simp [scorePhone, hcs, hrs] at e1
  | some rs =>
  simp only [scorePhone, hcs, hrs, h1, h2] at e1 e2
  by_cases hfb : f = "battery"
  · simp only [hfb, ite_true] at e1 e2
    refine priceAdjust_mono _ _ _ _ _ _ ?_ e1 e2
    have := add_le_add hdiv1 hdiv2
    linarith
  · by_cases hfc : f = "camera"
    · simp only [hfb, hfc, ite_true, ite_false] at e1 e2
      refine priceAdjust_mono _ _ _ _ _ _ ?_ e1 e2
      linarith
    · by_cases hfd : f = "display"
      · cases hds : p.display with
        | none => simp [hfb, hfc, hfd, hds] at e1
        | some ds =>
          simp only [hfb, hfc, hfd, hds, ite_true, ite_false] at e1 e2
          refine priceAdjust_mono _ _ _ _ _ _ ?_ e1 e2
          linarith
      · simp only [hfb, hfc, hfd, ite_false] at e1 e2
        refine priceAdjust_mono _ _ _ _ _ _ ?_ e1 e2
        linarith

/-- C4 (witness): monotonicity applied to concrete records with 4000 mAh and
5000 mAh batteries under the battery focus (scores 12 and 15). -/
theorem score_monotone_battery_witness : (12 : ℚ) ≤ 15 := by
  have hb1 : reFindNumUnit "mAh".data true "4000 mAh".data = some 4000 := by decide
  have hb2 : reFindNumUnit "mAh".data true "5000 mAh".data = some 5000 := by decide
  have hcN : reFindNumUnit "MP".data true "N/A".data = none := by decide
  have hrN : reFindNumUnit "GB".data true "N/A".data = none := by decide
  refine score_monotone_battery { camera := some "N/A", ram := some "N/A" }
    "4000 mAh" "5000 mAh" 4000 5000 "battery" none 12 15
    hb1 hb2 (by norm_num) ?_ ?_
  · simp only [scorePhone, hb1, hcN, hrN, priceAdjust, ite_true, Option.some_inj]
    norm_num
  · simp only [scorePhone, hb2, hcN, hrN, priceAdjust, ite_true, Option.some_inj]
    norm_num

/-! ### Lemmas: the ranker -/

theorem scoreList_eq_some (focus : String) (pm : Option ℚ) :
    ∀ {l : List PhoneRec} {sc : List (PhoneRec × ℚ)},
      scoreList focus pm l = some sc →
      sc.map Prod.fst = l ∧ ∀ x ∈ sc, scorePhone x.1 focus pm = some x.2 := by
  intro l
  induction l with
  | nil =>
    intro sc h
    simp only [scoreList, Option.some_inj] at h
    subst h
    simp
  | cons p rest ih =>
    intro sc h
    simp only [scoreList] at h
    cases hsp : scorePhone p focus pm with
    | none => rw [hsp] at h; exact absurd h (by simp)
    | some s =>
      rw [hsp] at h
      rw [Option.map_eq_some'] at h
      obtain ⟨t, ht, rfl⟩ := h
      obtain ⟨hmap, hall⟩ := ih ht
      refine ⟨by simp [hmap], ?_⟩
      intro x hx
      rcases List.mem_cons.mp hx with h1 | h2
      · rw [h1]
        exact hsp
      · exact hall x h2

theorem scoreList_filter (focus : String) (pm : Option ℚ) (q : ℚ) :
    ∀ {l : List PhoneRec} {sc : List (PhoneRec × ℚ)},
      scoreList focus pm l = some sc →
      l.filter (fun p => decide (scorePhone p focus pm = some q)) =
        (sc.filter fun x => decide (x.2 = q)).map Prod.fst := by
  intro l
  induction l with
  | nil =>
    intro sc h
    simp only [scoreList, Option.some_inj] at h
    subst h
    simp
  | cons p rest ih =>
    intro sc h
    simp only [scoreList] at h
    cases hsp : scorePhone p focus pm with
    | none => rw [hsp] at h; exact absurd h (by simp)
    | some s =>
      rw [hsp] at h
      rw [Option.map_eq_some'] at h
      obtain ⟨t, ht, rfl⟩ := h
      by_cases hsq : s = q
      · simp [List.filter_cons, hsp, hsq, ih ht]
      · have : ¬ (some s = some q) := fun hc => hsq (Option.some_inj.mp hc)
        simp [List.filter_cons, hsp, hsq, this, ih ht]

/-- C5 (claim): the ranker returns at most three records, in descending score
order, and equal-score records keep their input order (for every score value,
the ranked records with that score form a prefix of the input records with
that score). -/
theorem prepareRecommendations_rank (phones : List PhoneRec) (crit : Criteria) (rd : RecData)
    (h : prepareRecommendations phones crit = some rd) :
    rd.top_picks.length ≤ 3 ∧
    rd.top_picks.Pairwise (fun a b => ∀ sa sb,
      scorePhone a (crit.focus.getD "overall") crit.price_max = some sa →
      scorePhone b (crit.focus.getD "overall") crit.price_max = some sb → sb ≤ sa) ∧
    ∀ q : ℚ, List.IsPrefix
      (rd.top_picks.filter fun p =>
        decide (scorePhone p (crit.focus.getD "overall") crit.price_max = some q))
      (phones.filter fun p =>
        decide (scorePhone p (crit.focus.getD "overall") crit.price_max = some q)) := by
  simp only [prepareRecommendations, Option.bind_eq_bind] at h
  cases hsc : scoreList (crit.focus.getD "overall") crit.price_max phones with
  | none => rw [hsc] at h; exact absurd h (by simp)
  | some sc =>
    rw [hsc] at h
    simp only [Option.some_bind, Option.some_inj] at h
    subst h
    obtain ⟨hmap, hall⟩ := scoreList_eq_some _ _ hsc
    have htake : ∀ x ∈ List.take 3 (sortDescBy (fun x : PhoneRec × ℚ => x.2) sc),
        scorePhone x.1 (crit.focus.getD "overall") crit.price_max = some x.2 :=
      fun x hx => hall x ((sortDescBy_perm _ sc).mem_iff.mp ((List.take_sublist 3 _).subset hx))
    refine ⟨?_, ?_, ?_⟩
    · simp only [List.length_map, List.length_take]
      exact Nat.min_le_left _ _
    · have h1 : (List.take 3 (sortDescBy (fun x : PhoneRec × ℚ => x.2) sc)).Pairwise
          (fun p r : PhoneRec × ℚ => r.2 ≤ p.2) :=
        (sortDescBy_pairwise _ sc).sublist (List.take_sublist 3 _)
      have h3 : (List.take 3 (sortDescBy (fun x : PhoneRec × ℚ => x.2) sc)).Pairwise
          (fun p r : PhoneRec × ℚ =>
            scorePhone p.1 (crit.focus.getD "overall") crit.price_max = some p.2 ∧
            scorePhone r.1 (crit.focus.getD "overall") crit.price_max = some r.2 ∧
            r.2 ≤ p.2) :=
        List.Pairwise.imp_of_mem (fun hp hr hle => ⟨htake _ hp, htake _ hr, hle⟩) h1
      refine List.Pairwise.map Prod.fst ?_ h3
      rintro p r ⟨hp, hr, hle⟩ sa sb hsa hsb
      have ea : p.2 = sa := Option.some_inj.mp (hp.symm.trans hsa)
      have eb : r.2 = sb := Option.some_inj.mp (hr.symm.trans hsb)
      rw [← ea, ← eb]
      exact hle
    · intro q
      have stepA : (((sortDescBy (fun x : PhoneRec × ℚ => x.2) sc).take 3).map Prod.fst).filter
          (fun p => decide (scorePhone p (crit.focus.getD "overall") crit.price_max = some q)) =
          (((sortDescBy (fun x : PhoneRec × ℚ => x.2) sc).take 3).filter
            (fun x => decide (x.2 = q))).map Prod.fst := by
        rw [List.filter_map]
        congr 1
        refine List.filter_congr ?_
        intro x hx
        have hxs := htake x hx
        simp [Function.comp, hxs, Option.some.injEq]
      have stepD : phones.filter
          (fun p => decide (scorePhone p (crit.focus.getD "overall") crit.price_max = some q)) =
          (sc.filter fun x => decide (x.2 = q)).map Prod.fst :=
        scoreList_filter _ _ q hsc
      have stepC : (sortDescBy (fun x : PhoneRec × ℚ => x.2) sc).filter
          (fun x => decide (x.2 = q)) = sc.filter (fun x => decide (x.2 = q)) :=
        sortDescBy_filter_key (fun x : PhoneRec × ℚ => x.2) q sc
      have hpre : List.IsPrefix (List.take 3 (sortDescBy (fun x : PhoneRec × ℚ => x.2) sc))
          (sortDescBy (fun x : PhoneRec × ℚ => x.2) sc) :=
        ⟨(sortDescBy (fun x : PhoneRec × ℚ => x.2) sc).drop 3, List.take_append_drop 3 _⟩
      have hpref := hpre.filter (fun x : PhoneRec × ℚ => decide (x.2 = q))
      rw [stepC] at hpref
      rw [stepA, stepD]
      exact hpref.map Prod.fst

/-- C5 (witness): the rank theorem applied to a concrete two-record input
(scores 1 and 2; the higher battery is ranked first). -/
theorem prepareRecommendations_rank_witness :
    ∃ rd, prepareRecommendations
      [{ battery := some "1000 mAh", camera := some "", ram := some "" },
       { battery := some "2000 mAh", camera := some "", ram := some "" }]
      { price_max := none, focus := none } = some rd ∧ rd.top_picks.length ≤ 3 := by
  have hb1 : reFindNumUnit "mAh".data true "1000 mAh".data = some 1000 := by decide
  have hb2 : reFindNumUnit "mAh".data true "2000 mAh".data = some 2000 := by decide
  have hcN : reFindNumUnit "MP".data true "".data = none := by decide
  have hrN : reFindNumUnit "GB".data true "".data = none := by decide
  have hs1 : scorePhone { battery := some "1000 mAh", camera := some "", ram := some "" }
      "overall" none = some 1 := by
    simp [scorePhone, hb1, hcN, hrN, priceAdjust]
  have hs2 : scorePhone { battery := some "2000 mAh", camera := some "", ram := some "" }
      "overall" none = some 2 := by
    simp [scorePhone, hb2, hcN, hrN, priceAdjust]
    norm_num
  have h : prepareRecommendations
      [{ battery := some "1000 mAh", camera := some "", ram := some "" },
       { battery := some "2000 mAh", camera := some "", ram := some "" }]
      { price_max := none, focus := none } = some
      { criteria := { price_max := none, focus := none },
        candidates :=
          [{ battery := some "1000 mAh", camera := some "", ram := some "" },
           { battery := some "2000 mAh", camera := some "", ram := some "" }],
        top_picks :=
          [{ battery := some "2000 mAh", camera := some "", ram := some "" },
           { battery := some "1000 mAh", camera := some "", ram := some "" }] } := by
    simp only [prepareRecommendations, Option.getD_none, scoreList, hs1, hs2, Option.map_some',
      Option.some_bind]
    norm_num [sortDescBy, insertDesc]
  exact ⟨_, h, (prepareRecommendations_rank _ _ _ h).1⟩

/-- C6 (claim): the comparison differencer emits exactly the attributes whose
two raw values are unequal (no normalisation), with the two values attached,
in the canonical attribute order (its `spec` projection is a sublist of the
canonical sequence). -/
theorem prepareComparison_differences (p1 p2 : PhoneRec) (rest : List PhoneRec) :
    ∃ cd, prepareComparison (p1 :: p2 :: rest) = some cd ∧
      (∀ s : String, (∃ e ∈ cd.differences, e.spec = s) ↔
        s ∈ specsToCompare ∧ specGet p1 s ≠ specGet p2 s) ∧
      (∀ e ∈ cd.differences,
        e.phone1_value = specGet p1 e.spec ∧ e.phone2_value = specGet p2 e.spec) ∧
      List.Sublist (cd.differences.map DiffEntry.spec) specsToCompare := by
  refine ⟨_, rfl, ?_, ?_, diffEntries_spec_sublist _ _ _⟩
  · intro s
    constructor
    · rintro ⟨e, he, rfl⟩
      obtain ⟨hs, hne, -⟩ := (mem_diffEntries _ _ _ e).mp he
      exact ⟨hs, hne⟩
    · rintro ⟨hs, hne⟩
      exact ⟨⟨s, specGet p1 s, specGet p2 s⟩,
        (mem_diffEntries _ _ _ _).mpr ⟨hs, hne, rfl⟩, rfl⟩
  · intro e he
    obtain ⟨-, -, he2⟩ := (mem_diffEntries _ _ _ e).mp he
    exact ⟨congrArg DiffEntry.phone1_value he2, congrArg DiffEntry.phone2_value he2⟩

/-- C6 (witness): the differences theorem applied to two concrete records
that differ in their battery attribute. -/
theorem prepareComparison_differences_witness :
    ∃ cd, prepareComparison
      [{ battery := some "4000 mAh" }, { battery := some "5000 mAh" }] = some cd ∧
      ∃ e ∈ cd.differences, e.spec = "battery" := by
  obtain ⟨cd, hcd, hiff, -, -⟩ := prepareComparison_differences
    { battery := some "4000 mAh" } { battery := some "5000 mAh" } []
  exact ⟨cd, hcd, (hiff "battery").mpr ⟨by decide, by decide⟩⟩

/-- C7 (claim): the differencer is symmetric up to label swap — comparing in
the opposite order yields the same attribute entries with the two values of
each entry exchanged. -/
theorem prepareComparison_symm (p1 p2 : PhoneRec) (r1 r2 : List PhoneRec) :
    ∃ cd12 cd21, prepareComparison (p1 :: p2 :: r1) = some cd12 ∧
      prepareComparison (p2 :: p1 :: r2) = some cd21 ∧
      cd21.differences = cd12.differences.map
        (fun e => ⟨e.spec, e.phone2_value, e.phone1_value⟩) :=
  ⟨_, _, rfl, rfl, diffEntries_swap (specGet p1) (specGet p2) specsToCompare⟩

/-- C7 (witness): the symmetry theorem instantiated at two concrete records. -/
theorem prepareComparison_symm_witness :
    ∃ cd12 cd21, prepareComparison
        [{ battery := some "4000 mAh" }, { battery := some "5000 mAh" }] = some cd12 ∧
      prepareComparison
        [{ battery := some "5000 mAh" }, { battery := some "4000 mAh" }] = some cd21 ∧
      cd21.differences = cd12.differences.map
        (fun e => ⟨e.spec, e.phone2_value, e.phone1_value⟩) :=
  prepareComparison_symm { battery := some "4000 mAh" } { battery := some "5000 mAh" } [] []

/-- C8 (claim): when several focus keyword groups appear, the last group
checked wins — display-related terms override camera terms, which override
battery terms — and a query matching no group leaves the focus unset. -/
theorem focus_last_group_wins (query : String) :
    (hasDisplayKw (lowerL query.data) = true →
      (retrieveCriteria query).focus = some "display") ∧
    (hasDisplayKw (lowerL query.data) = false → hasCameraKw (lowerL query.data) = true →
      (retrieveCriteria query).focus = some "camera") ∧
    (hasDisplayKw (lowerL query.data) = false → hasCameraKw (lowerL query.data) = false →
      hasBatteryKw (lowerL query.data) = true →
      (retrieveCriteria query).focus = some "battery") ∧
    (hasDisplayKw (lowerL query.data) = false → hasCameraKw (lowerL query.data) = false →
      hasBatteryKw (lowerL query.data) = false → (retrieveCriteria query).focus = none) := by
  refine ⟨?_, ?_, ?_, ?_⟩
  · intro hD
    simp [retrieveCriteria, extractCriteria, hD]
  · intro hD hC
    simp [retrieveCriteria, extractCriteria, hD, hC]
  · intro hD hC hB
    simp [retrieveCriteria, extractCriteria, hD, hC, hB]
  · intro hD hC hB
    simp [retrieveCriteria, extractCriteria, hD, hC, hB]

/-- C8 (witness): a query naming all three groups resolves to the display
focus; one naming battery and camera resolves to the camera focus. -/
theorem focus_last_group_wins_witness :
    (retrieveCriteria "battery camera display").focus = some "display" ∧
    (retrieveCriteria "battery camera").focus = some "camera" := by
  refine ⟨(focus_last_group_wins "battery camera display").1 (by decide), ?_⟩
  exact (focus_last_group_wins "battery camera").2.1 (by decide) (by decide)

/-- C10 (claim): the `below` price pattern is evaluated after the `under`
pattern and overwrites it, so a query matching both gets the `below` value as
its price ceiling, regardless of the phrases' order in the text. -/
theorem below_overrides_under (query : String) (n m : ℕ)
    (hu : searchPriceKw "under".data (lowerL query.data) = some n)
    (hb : searchPriceKw "below".data (lowerL query.data) = some m) :
    (retrieveCriteria query).price_max = some (m : ℚ) := by
  simp [retrieveCriteria, extractCriteria, hb]

/-- C10 (witness): in a query where the `below` phrase precedes the `under`
phrase, the ceiling is still the `below` value. -/
theorem below_overrides_under_witness :
    (retrieveCriteria "below $300 or under $500 please").price_max = some ((300 : ℕ) : ℚ) :=
  below_overrides_under "below $300 or under $500 please" 500 300 (by decide) (by decide)

/-- C9 (counterexample): with the `general` intent and zero fetched records,
`generate_review` returns the fixed catch-all no-phones message — not the
"please ask about a specific model" message the claim asserts. -/
theorem general_zero_records_counterexample :
    generate_review none
      { query := "", query_type := "general", criteria := {}, phones := [] } =
      some noPhonesMsg ∧ noPhonesMsg ≠ pleaseAskMsg := by
  exact ⟨by simp [generate_review], by decide⟩

/-- C9 (amended): for zero records `generate_review` short-circuits to the
same fixed no-phones message for every intent, `general` included, before any
per-intent renderer runs; the "please ask about a specific model" message is
produced by the general template renderer itself on zero records, which
`generate_review` never reaches. -/
theorem zero_records_messages (llm : Option (ExtractedData → Option String))
    (d : ExtractedData) (h : d.phones = []) :
    generate_review llm d = some noPhonesMsg ∧ generalReview d = pleaseAskMsg := by
  constructor
  · simp [generate_review, h]
  · simp [generalReview, h]

/-- C9 (amended, witness): the zero-record messages at a concrete payload. -/
theorem zero_records_messages_witness :
    generate_review none
      { query := "", query_type := "general", criteria := {}, phones := [] } =
        some noPhonesMsg ∧
    generalReview
      { query := "", query_type := "general", criteria := {}, phones := [] } =
        pleaseAskMsg :=
  zero_records_messages none
    { query := "", query_type := "general", criteria := {}, phones := [] } rfl

end PhoneAdvisor
